import Mathlib

/-!
Verification of the conflex configuration-aggregation library.

The Go code is shallowly embedded: `map[string]any` configuration values
become the inductive type `CVal` (with `CVal.vNull` playing the role of the
Go `nil` interface value), Go maps become association lists with
first-match lookup and in-place update, and the stateful `Conflex.Load`
pipeline becomes a pure function from a configuration and a state to a
result record that also exposes the trace of assignments to the committed
values pointer and the number of custom validators invoked.
-/

/-- Go `strings.Split` restricted to a single-character separator (the
library only splits on `.`, `_`, `=` and newline), over the character
list: splitting the empty string gives one empty field, and consecutive
separators produce empty fields. -/
def splitChars (sep : Char) : List Char → List (List Char)
  | [] => [[]]
  | c :: cs =>
    let r := splitChars sep cs
    if c = sep then [] :: r
    else
      match r with
      | [] => [[c]]
      | h :: t => (c :: h) :: t

/-- Go `strings.Split(s, sep)` for a one-character `sep`. -/
def splitStr (s : String) (sep : Char) : List String :=
  (splitChars sep s.data).map (fun l => String.mk l)

/-- Go `strings.ToLower` (character-wise). -/
def strToLower (s : String) : String :=
  String.mk (s.data.map Char.toLower)

/-- Go `strings.HasPrefix`. -/
def strHasPfx (s p : String) : Bool :=
  p.data.isPrefixOf s.data

/-- Go `strings.TrimPrefix`: drop `p` from the front of `s` when it is a
prefix, otherwise return `s` unchanged. -/
def trimPfx (p s : String) : String :=
  if strHasPfx s p then String.mk (s.data.drop p.data.length) else s

/-- A configuration value: the shallow embedding of the dynamic `any`
values stored in the Go `map[string]any` aggregates.  `vNull` stands for
the Go `nil` interface value, which `Get` also returns on an absent key. -/
inductive CVal where
  | vNull : CVal
  | vStr : String → CVal
  | vInt : Int → CVal
  | vBool : Bool → CVal
  | vList : List CVal → CVal
  | vMap : List (String × CVal) → CVal
deriving Repr

/-- The embedding of Go `map[string]any`: an association list from keys to
configuration values.  Lookup takes the first matching entry; the maps
produced by the decoders and by the merge have pairwise distinct keys. -/
abbrev CMap := List (String × CVal)

/-- Embedding of Go map indexing `m[k]` (with the `, ok` form): the value
at the first entry whose key equals `k`, if any. -/
def assocGet (m : CMap) (k : String) : Option CVal :=
  match m with
  | [] => none
  | (k', v') :: rest => if k' = k then some v' else assocGet rest k

/-- Embedding of Go map assignment `m[k] = v`: replaces the first entry
with key `k`, or appends a new entry when `k` is absent. -/
def assocSet (m : CMap) (k : String) (v : CVal) : CMap :=
  match m with
  | [] => [(k, v)]
  | (k', v') :: rest => if k' = k then (k, v) :: rest else (k', v') :: assocSet rest k v

/-- True exactly when the value is a nested map (a Go `map[string]any`). -/
def isMapVal : CVal → Bool
  | CVal.vMap _ => true
  | _ => false

mutual

/-- Merge of a single destination value with a single source value, as
performed by `mergo.Merge(&dst, src, mergo.WithOverride)` inside
`Conflex.Load`.  Modelled from the spec: the merge engine is delegated to
the external `mergo` dependency, whose `WithOverride` contract the spec
states as: recurse when both sides are maps, otherwise the later (source)
value replaces the earlier one entirely. -/
def mergeVal : CVal → CVal → CVal
  | CVal.vMap d, CVal.vMap s => CVal.vMap (mergeInto d s)
  | _, s => s
termination_by structural _ b => b

/-- Merge of a source map into a destination map, key by key.  Modelled
from the spec (see `mergeVal`): keys are unioned; on collision `mergeVal`
decides; keys present only in the source are added. -/
def mergeInto (dst : CMap) : CMap → CMap
  | [] => dst
  | (k, sv) :: rest =>
    let dst' :=
      match assocGet dst k with
      | some dv => assocSet dst k (mergeVal dv sv)
      | none => assocSet dst k sv
    mergeInto dst' rest
termination_by structural src => src

end

/-- The source-loading and merging loop of `Conflex.Load` (conflex.go,
lines 214-226): each source result is merged into the accumulator; the
first source or merge error aborts the whole load. -/
def mergeSources : List (Except String CMap) → CMap → Except String CMap
  | [], acc => Except.ok acc
  | r :: rest, acc =>
    match r with
    | Except.error e => Except.error e
    | Except.ok conf => mergeSources rest (mergeInto acc conf)

/-- Outcome of invoking one custom validator function: it may return
normally, return an error, or raise a runtime panic. -/
inductive VRes where
  | ok : VRes
  | fail : String → VRes
  | panics : String → VRes

/-- The recover wrapper around one custom-validator invocation in
`Conflex.Load` (conflex.go, lines 238-245): a panic is caught at the
invocation boundary and converted into the error
`validator panic: <msg>`. -/
def recoverValidator (fn : CMap → VRes) (m : CMap) : Option String :=
  match fn m with
  | VRes.ok => none
  | VRes.fail e => some e
  | VRes.panics p => some ("validator panic: " ++ p)

/-- The custom-validator loop of `Conflex.Load` (conflex.go, lines
236-249): validators run in registration order, the first failure
short-circuits the rest.  Returns the error, if any, together with the
number of validators actually invoked. -/
def runValidators : List (CMap → VRes) → CMap → Option String × Nat
  | [], _ => (none, 0)
  | fn :: rest, m =>
    match recoverValidator fn m with
    | some e => (some e, 1)
    | none =>
      let r := runValidators rest m
      (r.fst, r.snd + 1)

/-- The binding target configured via `WithBinding`, abstracted at the
`mapstructure` boundary: `decode` decodes a map into the current target
contents, returning the (possibly partially) written target together with
an optional error; `validate` is the target's optional `Validator` hook
(`fun _ => none` when the target does not implement it). -/
structure BindSpec (β : Type) where
  decode : CMap → β → β × Option String
  validate : β → Option String

/-- The per-`Load` inputs of a `Conflex` instance: the outcome of each
registered source's `Load` for this call, the optional compiled JSON
schema check, the registered custom validators, and the optional binding
target. -/
structure Config (β : Type) where
  sources : List (Except String CMap)
  schemaCheck : Option (CMap → Option String)
  customValidators : List (CMap → VRes)
  binding : Option (BindSpec β)

/-- The mutable state of a `Conflex` instance: the committed values map
(the target of the `c.values` pointer) and the contents of the
caller-owned binding target. -/
structure ConflexState (β : Type) where
  values : CMap
  binding : β

/-- The observable result of one `Conflex.Load` call: its return value,
the post-call state, the trace of every assignment to the `c.values`
pointer during the call, and how many custom validators ran. -/
structure LoadResult (β : Type) where
  outcome : Except String Unit
  state : ConflexState β
  valueWrites : List CMap
  validatorsRun : Nat

/-- The optional JSON-schema validation step of `Conflex.Load` (conflex.go,
lines 228-233), with the compiled schema abstracted as a function. -/
def checkSchema (sc : Option (CMap → Option String)) (m : CMap) : Option String :=
  match sc with
  | none => none
  | some f => f m

/-- The embedding of `Conflex.Load` (conflex.go, lines 213-273): build a
fresh map from the sources, merge, run schema validation and custom
validators, then — when a binding is configured — temporarily point
`c.values` at the new map, decode into the binding target, run its
`Validate` hook, restore the old pointer on failure, and finally commit
the new map under the mutex. -/
def load {β : Type} (cfg : Config β) (s : ConflexState β) : LoadResult β :=
  match mergeSources cfg.sources [] with
  | Except.error e => ⟨Except.error e, s, [], 0⟩
  | Except.ok newValues =>
    match checkSchema cfg.schemaCheck newValues with
    | some e => ⟨Except.error e, s, [], 0⟩
    | none =>
      match runValidators cfg.customValidators newValues with
      | (some e, n) => ⟨Except.error e, s, [], n⟩
      | (none, n) =>
        match cfg.binding with
        | none => ⟨Except.ok (), ⟨newValues, s.binding⟩, [newValues], n⟩
        | some bs =>
          match bs.decode newValues s.binding with
          | (b2, some e) => ⟨Except.error e, ⟨s.values, b2⟩, [newValues, s.values], n⟩
          | (b2, none) =>
            match bs.validate b2 with
            | some e => ⟨Except.error e, ⟨s.values, b2⟩, [newValues, s.values], n⟩
            | none =>
              ⟨Except.ok (), ⟨newValues, b2⟩, [newValues, s.values, newValues], n⟩

/-- The dot-notation traversal loop of `Conflex.getValueFromMap`
(conflex.go, lines 319-334), transliterated: look up each segment in turn;
the last segment's value is returned as is; a non-final segment must
resolve to a nested map, otherwise `nil` is returned; a missing segment
returns `nil`. -/
def goTraverse : CMap → List String → CVal
  | _, [] => CVal.vNull
  | m, seg :: rest =>
    match assocGet m seg with
    | none => CVal.vNull
    | some v =>
      if rest.isEmpty then v
      else
        match v with
        | CVal.vMap mm => goTraverse mm rest
        | _ => CVal.vNull

/-- The embedding of `Conflex.getValueFromMap` (conflex.go, lines
312-335): first a direct lookup of the whole path as one key, then the
dot-notation traversal.  `CVal.vNull` plays the role of the returned
`nil`. -/
def getValueFromMap (m : CMap) (path : String) : CVal :=
  match assocGet m path with
  | some v => v
  | none => goTraverse m (splitStr path '.')

/-- Path traversal written from the spec's words, for the refinement proof
of the resolution strategy: split on dots and traverse nested maps segment
by segment; any non-final segment that is missing or not a nested map
yields `nil`, as does a missing final segment. -/
def specTraverse : CMap → List String → CVal
  | _, [] => CVal.vNull
  | m, [seg] =>
    match assocGet m seg with
    | some v => v
    | none => CVal.vNull
  | m, seg :: rest =>
    match assocGet m seg with
    | some (CVal.vMap mm) => specTraverse mm rest
    | _ => CVal.vNull

/-- Path resolution written from the spec's words: first an exact match of
the whole path as a top-level key, and only when that fails the
segment-by-segment traversal. -/
def resolveSpec (m : CMap) (path : String) : CVal :=
  match assocGet m path with
  | some v => v
  | none => specTraverse m (splitStr path '.')

/-- Go `strings.SplitN(s, "=", 2)` restricted to the use in
`EnvVarCodec.Decode`: the part before the first `=` and everything after
it, or `none` when the entry contains no `=` (a malformed entry, which the
decoder silently skips). -/
def splitEq (s : String) : Option (String × String) :=
  match splitStr s '=' with
  | [] => none
  | [_] => none
  | k :: rest => some (k, String.intercalate "=" rest)

/-- The nested-map walk of `EnvVarCodec.Decode` (codec env source, lines
79-92): create or descend into a nested map for every segment but the
last — overwriting a non-map value with a fresh empty map — and assign the
raw string value at the final segment. -/
def insertPath (m : CMap) : List String → String → CMap
  | [], _ => m
  | [last], v => assocSet m last (CVal.vStr v)
  | seg :: rest, v =>
    let sub :=
      match assocGet m seg with
      | some (CVal.vMap mm) => mm
      | _ => []
    assocSet m seg (CVal.vMap (insertPath sub rest v))

/-- The embedding of `EnvVarCodec.Decode`: split the data on newlines,
skip entries without `=`, lower-case each key, split it on `_` (keeping
empty segments, as `strings.Split` does), and fold the entry into the
nested map. -/
def envVarDecode (data : String) : CMap :=
  (splitStr data '\n').foldl
    (fun conf line =>
      match splitEq line with
      | none => conf
      | some (k, v) => insertPath conf (splitStr (strToLower k) '_') v)
    []

/-- The embedding of `OSEnvVar.Load` (source/env.go, lines 42-61): keep
the environment entries (full `KEY=VALUE` strings) starting with the
configured prefix, strip the prefix, join them with newlines and decode
with `EnvVarCodec`. -/
def osEnvVarLoad (pfx : String) (environ : List String) : CMap :=
  envVarDecode (String.intercalate "\n"
    ((environ.filter (fun e => strHasPfx e pfx)).map (fun e => trimPfx pfx e)))

/-- The decoder held by a Consul source, at the boundary `Consul.Load`
observes: either the special caster codec, which decodes the raw value and
wraps it under the last path component, or a plain map decoder. -/
inductive ConsulDecoder where
  | caster : (String → Except String CVal) → ConsulDecoder
  | plain : (String → Except String CMap) → ConsulDecoder

/-- The embedding of `Consul.Load` (source/consul.go, lines 60-97): the KV
lookup may fail, return no pair, or return a key-value pair that is then
decoded (the `lastIndex` bookkeeping has no observable effect on the
returned configuration and is not modelled). -/
def consulLoad (dec : ConsulDecoder)
    (kvResult : Except String (Option (String × String))) : Except String CMap :=
  match kvResult with
  | Except.error e => Except.error ("failed to get consul key: " ++ e)
  | Except.ok none => Except.ok []
  | Except.ok (some (key, value)) =>
    match dec with
    | ConsulDecoder.caster f =>
      match f value with
      | Except.error e => Except.error ("failed to decode consul value: " ++ e)
      | Except.ok val => Except.ok [((splitStr key '/').getLastD "", val)]
    | ConsulDecoder.plain f =>
      match f value with
      | Except.error e => Except.error ("failed to decode consul value: " ++ e)
      | Except.ok config => Except.ok config

/-- The string conversion of the external `cast` library (`ToStringE`),
modelled from its documented lenient rules: `nil` and scalars convert,
maps and sequences are cast errors. -/
def castToStringE : CVal → Except String String
  | CVal.vNull => Except.ok ""
  | CVal.vStr s => Except.ok s
  | CVal.vInt n => Except.ok (toString n)
  | CVal.vBool b => Except.ok (if b then "true" else "false")
  | CVal.vList _ => Except.error "unable to cast value to string"
  | CVal.vMap _ => Except.error "unable to cast value to string"

/-- The integer conversion of the external `cast` library (`ToIntE`),
modelled from its documented lenient rules: integers pass through, numeric
strings parse, booleans map to 0/1, `nil` is 0, everything else is a cast
error. -/
def castToIntE : CVal → Except String Int
  | CVal.vNull => Except.ok 0
  | CVal.vInt n => Except.ok n
  | CVal.vBool b => Except.ok (if b then 1 else 0)
  | CVal.vStr s =>
    match s.toInt? with
    | some n => Except.ok n
    | none => Except.error "unable to cast value to int"
  | CVal.vList _ => Except.error "unable to cast value to int"
  | CVal.vMap _ => Except.error "unable to cast value to int"

/-- The `key not found` error message produced by the error-variant
getters (conflex.go, e.g. line 354). -/
def keyNotFoundMsg (k : String) : String :=
  "key " ++ k ++ " not found"

/-- The embedding of `Conflex.GetString` (conflex.go, lines 345-347):
best-effort cast, returning the zero value on any cast failure. -/
def GetString (m : CMap) (k : String) : String :=
  match castToStringE (getValueFromMap m k) with
  | Except.ok s => s
  | Except.error _ => ""

/-- The embedding of `Conflex.GetStringE` (conflex.go, lines 351-357): a
`nil` lookup result yields the key-not-found error, otherwise the strict
cast runs and on failure pairs the zero value with the cast error. -/
def GetStringE (m : CMap) (k : String) : String × Option String :=
  match getValueFromMap m k with
  | CVal.vNull => ("", some (keyNotFoundMsg k))
  | v =>
    match castToStringE v with
    | Except.ok s => (s, none)
    | Except.error e => ("", some e)

/-- The embedding of `Conflex.GetInt` (conflex.go, lines 377-379). -/
def GetInt (m : CMap) (k : String) : Int :=
  match castToIntE (getValueFromMap m k) with
  | Except.ok n => n
  | Except.error _ => 0

/-- The embedding of `Conflex.GetIntE` (conflex.go, lines 383-389). -/
def GetIntE (m : CMap) (k : String) : Int × Option String :=
  match getValueFromMap m k with
  | CVal.vNull => (0, some (keyNotFoundMsg k))
  | v =>
    match castToIntE v with
    | Except.ok n => (n, none)
    | Except.error e => (0, some e)

theorem assocGet_assocSet_self (m : CMap) (k : String) (v : CVal) :
    assocGet (assocSet m k v) k = some v := by
  induction m with
  | nil => simp [assocSet, assocGet]
  | cons p rest ih =>
    obtain ⟨k', v'⟩ := p
    by_cases h : k' = k
    · subst h; simp [assocSet, assocGet]
    · simp [assocSet, assocGet, h, ih]

theorem assocGet_assocSet_ne (m : CMap) (k' k : String) (v : CVal) (h : k' ≠ k) :
    assocGet (assocSet m k' v) k = assocGet m k := by
  induction m with
  | nil => simp [assocSet, assocGet, h]
  | cons p rest ih =>
    obtain ⟨a, b⟩ := p
    by_cases ha : a = k'
    · subst ha; simp [assocSet, assocGet, h]
    · by_cases hak : a = k
      · subst hak; simp [assocSet, assocGet, ha]
      · simp [assocSet, assocGet, ha, hak, ih]

theorem assocGet_eq_none (m : CMap) (k : String) (h : k ∉ m.map Prod.fst) :
    assocGet m k = none := by
  induction m with
  | nil => rfl
  | cons p rest ih =>
    obtain ⟨a, b⟩ := p
    simp only [List.map_cons, List.mem_cons, not_or] at h
    have ha : a ≠ k := fun hh => h.1 hh.symm
    simp [assocGet, ha, ih h.2]

theorem mergeInto_get (src : CMap) (hnd : (src.map Prod.fst).Nodup) (d : CMap) (k : String) :
    assocGet (mergeInto d src) k =
      match assocGet src k, assocGet d k with
      | none, dv => dv
      | some sv, none => some sv
      | some sv, some dv => some (mergeVal dv sv) := by
  induction src generalizing d with
  | nil => simp [mergeInto, assocGet]
  | cons p rest ih =>
    obtain ⟨k0, sv0⟩ := p
    simp only [List.map_cons, List.nodup_cons] at hnd
    obtain ⟨hk0, hrest⟩ := hnd
    by_cases hk : k0 = k
    · subst hk
      have hrk : assocGet rest k0 = none := assocGet_eq_none rest k0 hk0
      cases hd : assocGet d k0 with
      | none =>
        simp only [mergeInto, hd]
        rw [ih hrest]
        simp [hrk, assocGet_assocSet_self, assocGet, hd]
      | some dv =>
        simp only [mergeInto, hd]
        rw [ih hrest]
        simp [hrk, assocGet_assocSet_self, assocGet, hd]
    · have hk' : k0 ≠ k := hk
      cases hd : assocGet d k0 with
      | none =>
        simp only [mergeInto, hd]
        rw [ih hrest]
        rw [assocGet_assocSet_ne d k0 k sv0 hk']
        simp [assocGet, hk']
      | some dv =>
        simp only [mergeInto, hd]
        rw [ih hrest]
        rw [assocGet_assocSet_ne d k0 k (mergeVal dv sv0) hk']
        simp [assocGet, hk']

theorem goTraverse_cons (m : CMap) (seg : String) (rest : List String) :
    goTraverse m (seg :: rest) =
      match assocGet m seg with
      | none => CVal.vNull
      | some v =>
        if rest.isEmpty then v
        else
          match v with
          | CVal.vMap mm => goTraverse mm rest
          | _ => CVal.vNull := rfl

theorem specTraverse_cons2 (m : CMap) (seg r : String) (rs : List String) :
    specTraverse m (seg :: r :: rs) =
      match assocGet m seg with
      | some (CVal.vMap mm) => specTraverse mm (r :: rs)
      | _ => CVal.vNull := rfl

theorem goTraverse_eq_specTraverse (segs : List String) (m : CMap) :
    goTraverse m segs = specTraverse m segs := by
  induction segs generalizing m with
  | nil => rfl
  | cons seg rest ih =>
    cases rest with
    | nil =>
      rw [goTraverse_cons]
      cases h : assocGet m seg <;> simp [specTraverse, h]
    | cons r rs =>
      rw [goTraverse_cons, specTraverse_cons2]
      cases h : assocGet m seg with
      | none => rfl
      | some v => cases v <;> simp [ih]

theorem mergeVal_nonmap (dv sv : CVal) (h : isMapVal sv = false) :
    mergeVal dv sv = sv := by
  cases dv <;> cases sv <;> simp_all [mergeVal, isMapVal]

theorem runValidators_append (v1 : List (CMap → VRes)) (v : CMap → VRes)
    (v2 : List (CMap → VRes)) (m : CMap) (e : String)
    (h1 : ∀ f ∈ v1, f m = VRes.ok) (hv : recoverValidator v m = some e) :
    runValidators (v1 ++ v :: v2) m = (some e, v1.length + 1) := by
  induction v1 with
  | nil => simp [runValidators, hv]
  | cons f rest ih =>
    have hf : recoverValidator f m = none := by
      simp [recoverValidator, h1 f (by simp)]
    simp [runValidators, hf, ih (fun g hg => h1 g (by simp [hg]))]

/-- Claim C1: whenever `Load` returns an error — from a source load, the
merge, schema validation, a custom validator, binding, or the target's
`Validate` hook — the committed values map observable after the call is
exactly the one committed before it. -/
theorem c1_load_transactional {β : Type} (cfg : Config β) (s : ConflexState β) (e : String)
    (h : (load cfg s).outcome = Except.error e) :
    (load cfg s).state.values = s.values := by
  cases hm : mergeSources cfg.sources [] with
  | error e2 => simp [load, hm]
  | ok nv =>
    cases hs : checkSchema cfg.schemaCheck nv with
    | some e2 => simp [load, hm, hs]
    | none =>
      cases hv : runValidators cfg.customValidators nv with
      | mk vErr vCnt =>
        cases vErr with
        | some e2 => simp [load, hm, hs, hv]
        | none =>
          cases hb : cfg.binding with
          | none => simp [load, hm, hs, hv, hb] at h
          | some bs =>
            cases hd : bs.decode nv s.binding with
            | mk b2 dErr =>
              cases dErr with
              | some e2 => simp [load, hm, hs, hv, hb, hd]
              | none =>
                cases hval : bs.validate b2 with
                | some e2 => simp [load, hm, hs, hv, hb, hd, hval]
                | none => simp [load, hm, hs, hv, hb, hd, hval] at h

/-- Witness for claim C1: a single failing source leaves the previously
committed map in place. -/
theorem c1_load_transactional_witness :
    (load (⟨[Except.error "boom"], none, [], none⟩ : Config Unit)
      ⟨[("a", CVal.vInt 1)], ()⟩).state.values = [("a", CVal.vInt 1)] :=
  c1_load_transactional _ _ "boom" rfl

/-- Claim C4 as stated is false: with a binding target configured, a
successful `Load` assigns the committed values pointer three times — the
not-yet-validated new map before binding, the old map afterwards, and the
new map at commit — not exactly once. -/
theorem c4_counterexample :
    (load (⟨[Except.ok [("a", CVal.vInt 1)]], none, [],
        some ⟨fun _ b => (b, none), fun _ => none⟩⟩ : Config Unit) ⟨[], ()⟩).valueWrites.length = 3 ∧
    (load (⟨[Except.ok [("a", CVal.vInt 1)]], none, [],
        some ⟨fun _ b => (b, none), fun _ => none⟩⟩ : Config Unit) ⟨[], ()⟩).valueWrites.length ≠ 1 :=
  ⟨rfl, by decide⟩

/-- Claim C4, amended: when no binding target is configured, the committed
values pointer is written exactly once per successful `Load` — with the
fully validated new map — and never on a failing `Load`; when a binding
target is configured, the pointer is additionally assigned the
not-yet-validated new map before binding and the old map afterwards, so a
successful `Load` writes it three times and a `Load` that fails after the
validators writes it twice, ending on the old map. -/
theorem c4_value_writes {β : Type} (cfg : Config β) (s : ConflexState β) :
    (cfg.binding = none →
      ((load cfg s).outcome = Except.ok () →
        (load cfg s).valueWrites = [(load cfg s).state.values]) ∧
      ((load cfg s).outcome ≠ Except.ok () → (load cfg s).valueWrites = [])) ∧
    (cfg.binding ≠ none →
      ((load cfg s).outcome = Except.ok () →
        (load cfg s).valueWrites =
          [(load cfg s).state.values, s.values, (load cfg s).state.values]) ∧
      ((load cfg s).outcome ≠ Except.ok () →
        ((load cfg s).valueWrites = [] ∨
          ∃ nv, (load cfg s).valueWrites = [nv, s.values] ∧
            (load cfg s).state.values = s.values))) := by
  cases hm : mergeSources cfg.sources [] with
  | error e2 => simp [load, hm]
  | ok nv =>
    cases hs : checkSchema cfg.schemaCheck nv with
    | some e2 => simp [load, hm, hs]
    | none =>
      cases hv : runValidators cfg.customValidators nv with
      | mk vErr vCnt =>
        cases vErr with
        | some e2 => simp [load, hm, hs, hv]
        | none =>
          cases hb : cfg.binding with
          | none => simp [load, hm, hs, hv, hb]
          | some bs =>
            cases hd : bs.decode nv s.binding with
            | mk b2 dErr =>
              cases dErr with
              | some e2 => simp [load, hm, hs, hv, hb, hd]
              | none =>
                cases hval : bs.validate b2 with
                | some e2 => simp [load, hm, hs, hv, hb, hd, hval]
                | none => simp [load, hm, hs, hv, hb, hd, hval]

/-- Witness for the amended claim C4: with no binding configured, a
successful `Load` writes the pointer exactly once, with the committed
map. -/
theorem c4_value_writes_witness :
    (load (⟨[Except.ok [("a", CVal.vInt 1)]], none, [], none⟩ : Config Unit)
        ⟨[], ()⟩).valueWrites = [[("a", CVal.vInt 1)]] :=
  ((c4_value_writes _ _).1 rfl).1 rfl

/-- Claim C2: merging a later source map into an earlier one unions the
keys; on a collision the merge recurses when both values are maps, a
non-map later value entirely replaces the earlier one, and keys defined by
only one of the two sources are present in the result. -/
theorem c2_merge_override (m1 m2 : CMap) (hnd : (m2.map Prod.fst).Nodup) (k : String) :
    (∀ dm sm, assocGet m1 k = some (CVal.vMap dm) → assocGet m2 k = some (CVal.vMap sm) →
      assocGet (mergeInto m1 m2) k = some (CVal.vMap (mergeInto dm sm))) ∧
    (∀ sv, assocGet m2 k = some sv → isMapVal sv = false →
      assocGet (mergeInto m1 m2) k = some sv) ∧
    (assocGet m2 k = none → assocGet (mergeInto m1 m2) k = assocGet m1 k) ∧
    (∀ sv, assocGet m2 k = some sv → assocGet m1 k = none →
      assocGet (mergeInto m1 m2) k = some sv) := by
  have H := mergeInto_get m2 hnd m1 k
  refine ⟨?_, ?_, ?_, ?_⟩
  · intro dm sm h1 h2
    rw [h1, h2] at H
    simpa [mergeVal] using H
  · intro sv h2 hnm
    rw [h2] at H
    cases h1 : assocGet m1 k with
    | none => rw [h1] at H; simpa using H
    | some dv =>
      rw [h1] at H
      simpa [mergeVal_nonmap dv sv hnm] using H
  · intro h2
    rw [h2] at H
    simpa using H
  · intro sv h2 h1
    rw [h2, h1] at H
    simpa using H

/-- Witness for claim C2: on a concrete pair of sources the colliding
nested maps recurse and keys from only one side survive. -/
theorem c2_merge_override_witness :
    assocGet (mergeInto [("a", CVal.vMap [("x", CVal.vInt 1)]), ("b", CVal.vInt 2)]
        [("a", CVal.vMap [("y", CVal.vInt 3)]), ("c", CVal.vStr "z")]) "a" =
      some (CVal.vMap (mergeInto [("x", CVal.vInt 1)] [("y", CVal.vInt 3)])) :=
  (c2_merge_override _ _ (by decide) "a").1 _ _ rfl rfl

/-- Claim C6: the custom validators run in registration order against the
merged new map; the first validator that fails — by returning an error or
by panicking — makes `Load` return an error (a panic is converted into the
error `validator panic: <msg>` at the invocation boundary, never
propagated), restores nothing, and prevents all later validators from
running. -/
theorem c6_validators_in_order {β : Type} (cfg : Config β) (s : ConflexState β) (m : CMap)
    (v1 : List (CMap → VRes)) (v : CMap → VRes) (v2 : List (CMap → VRes)) (e : String)
    (hm : mergeSources cfg.sources [] = Except.ok m)
    (hs : checkSchema cfg.schemaCheck m = none)
    (hvs : cfg.customValidators = v1 ++ v :: v2)
    (h1 : ∀ f ∈ v1, f m = VRes.ok)
    (hv : recoverValidator v m = some e) :
    (load cfg s).outcome = Except.error e ∧
    (load cfg s).validatorsRun = v1.length + 1 ∧
    (load cfg s).state = s ∧
    (∀ p, v m = VRes.panics p → e = "validator panic: " ++ p) := by
  have hrun : runValidators cfg.customValidators m = (some e, v1.length + 1) := by
    rw [hvs]; exact runValidators_append v1 v v2 m e h1 hv
  refine ⟨?_, ?_, ?_, ?_⟩
  · simp [load, hm, hs, hrun]
  · simp [load, hm, hs, hrun]
  · simp [load, hm, hs, hrun]
  · intro p hp
    simp [recoverValidator, hp] at hv
    exact hv.symm

/-- Witness for claim C6: a panicking second validator turns into a
`Load` error after exactly two validator invocations. -/
theorem c6_validators_in_order_witness :
    (load (⟨[Except.ok [("a", CVal.vInt 1)]], none,
        [fun _ => VRes.ok, fun _ => VRes.panics "boom", fun _ => VRes.fail "later"],
        none⟩ : Config Unit) ⟨[], ()⟩).outcome = Except.error "validator panic: boom" ∧
    (load (⟨[Except.ok [("a", CVal.vInt 1)]], none,
        [fun _ => VRes.ok, fun _ => VRes.panics "boom", fun _ => VRes.fail "later"],
        none⟩ : Config Unit) ⟨[], ()⟩).validatorsRun = 2 := by
  have H := c6_validators_in_order
    (⟨[Except.ok [("a", CVal.vInt 1)]], none,
      [fun _ => VRes.ok, fun _ => VRes.panics "boom", fun _ => VRes.fail "later"],
      none⟩ : Config Unit) ⟨[], ()⟩ [("a", CVal.vInt 1)]
    [fun _ => VRes.ok] (fun _ => VRes.panics "boom") [fun _ => VRes.fail "later"]
    "validator panic: boom" rfl rfl rfl
    (by intro f hf; rw [List.mem_singleton] at hf; subst hf; rfl) rfl
  exact ⟨H.1, H.2.1⟩

/-- Claim C7: the zero-value getters are total and return the type's zero
value on an absent path or an unconvertible value, while the error
variants pair the zero-equivalent value with a key-not-found error when
`Get` yields the absent marker and with the cast error when the value is
present but unconvertible. -/
theorem c7_getter_pairs (m : CMap) (k : String) :
    (getValueFromMap m k = CVal.vNull →
      GetString m k = "" ∧ GetInt m k = 0 ∧
      GetStringE m k = ("", some (keyNotFoundMsg k)) ∧
      GetIntE m k = (0, some (keyNotFoundMsg k))) ∧
    (∀ e, castToStringE (getValueFromMap m k) = Except.error e →
      GetString m k = "" ∧ GetStringE m k = ("", some e)) ∧
    (∀ e, castToIntE (getValueFromMap m k) = Except.error e →
      GetInt m k = 0 ∧ GetIntE m k = (0, some e)) := by
  refine ⟨?_, ?_, ?_⟩
  · intro h
    simp [GetString, GetInt, GetStringE, GetIntE, h, castToStringE, castToIntE]
  · intro e he
    cases hval : getValueFromMap m k <;> rw [hval] at he <;>
      simp [castToStringE] at he <;>
      simp [GetString, GetStringE, hval, castToStringE, he]
  · intro e he
    cases hval : getValueFromMap m k <;> rw [hval] at he <;>
      simp [castToIntE] at he <;>
      simp [GetInt, GetIntE, hval, castToIntE, he]

/-- Witness for claim C7: an absent key gives zero values plus a
key-not-found error, and a present map value gives the zero value plus a
cast error. -/
theorem c7_getter_pairs_witness :
    GetStringE [("m", CVal.vMap [])] "zz" = ("", some (keyNotFoundMsg "zz")) ∧
    GetStringE [("m", CVal.vMap [])] "m" = ("", some "unable to cast value to string") := by
  have H1 := (c7_getter_pairs [("m", CVal.vMap [])] "zz").1 rfl
  have H2 := (c7_getter_pairs [("m", CVal.vMap [])] "m").2.1
    "unable to cast value to string" rfl
  exact ⟨H1.2.2.1, H2.2⟩

/-- Claim C9: when binding is configured and `Load` fails in the decode
or in the target's `Validate` hook, the committed values map is restored
to its pre-`Load` value, but the binding target keeps whatever the decode
wrote: it is not rolled back. -/
theorem c9_binding_not_rolled_back {β : Type} (cfg : Config β) (s : ConflexState β)
    (bs : BindSpec β) (m : CMap) (b2 : β) (dErr : Option String)
    (hb : cfg.binding = some bs)
    (hm : mergeSources cfg.sources [] = Except.ok m)
    (hs : checkSchema cfg.schemaCheck m = none)
    (hv : (runValidators cfg.customValidators m).fst = none)
    (hd : bs.decode m s.binding = (b2, dErr))
    (hfail : dErr ≠ none ∨ bs.validate b2 ≠ none) :
    (∃ e, (load cfg s).outcome = Except.error e) ∧
    (load cfg s).state.values = s.values ∧
    (load cfg s).state.binding = b2 := by
  cases hvp : runValidators cfg.customValidators m with
  | mk vErr vCnt =>
    rw [hvp] at hv
    simp only at hv
    subst hv
    cases dErr with
    | some de => refine ⟨⟨de, ?_⟩, ?_, ?_⟩ <;> simp [load, hm, hs, hvp, hb, hd]
    | none =>
      cases hval : bs.validate b2 with
      | none => simp [hval] at hfail
      | some ve => refine ⟨⟨ve, ?_⟩, ?_, ?_⟩ <;> simp [load, hm, hs, hvp, hb, hd, hval]

/-- Witness for claim C9: a failing `Validate` hook leaves the committed
map untouched while the binding target keeps the decoded value `7`. -/
theorem c9_binding_not_rolled_back_witness :
    (load (⟨[Except.ok [("a", CVal.vInt 1)]], none, [],
        some ⟨fun _ _ => (7, none), fun _ => some "invalid config"⟩⟩ : Config Int)
      ⟨[("old", CVal.vStr "x")], 0⟩).state.values = [("old", CVal.vStr "x")] ∧
    (load (⟨[Except.ok [("a", CVal.vInt 1)]], none, [],
        some ⟨fun _ _ => (7, none), fun _ => some "invalid config"⟩⟩ : Config Int)
      ⟨[("old", CVal.vStr "x")], 0⟩).state.binding = 7 := by
  have H := c9_binding_not_rolled_back
    (⟨[Except.ok [("a", CVal.vInt 1)]], none, [],
        some ⟨fun _ _ => (7, none), fun _ => some "invalid config"⟩⟩ : Config Int)
    ⟨[("old", CVal.vStr "x")], 0⟩
    ⟨fun _ _ => (7, none), fun _ => some "invalid config"⟩
    [("a", CVal.vInt 1)] 7 none rfl rfl rfl rfl rfl
    (Or.inr (by simp))
  exact ⟨H.2.1, H.2.2⟩

/-- Claim C8: for every path, `getValueFromMap` first tries an exact
whole-path top-level match (so dotted top-level keys are reachable and
take precedence) and only on failure traverses segment by segment,
returning nil when a non-final segment is missing or not a nested map —
i.e. it coincides with the resolution strategy `resolveSpec` written from
the spec's words. -/
theorem c8_resolution_strategy (m : CMap) (path : String) :
    getValueFromMap m path = resolveSpec m path := by
  unfold getValueFromMap resolveSpec
  cases assocGet m path with
  | some v => rfl
  | none => exact goTraverse_eq_specTraverse _ m

/-- Claim C3 is violated by the code: on the committed map
`{"a": {"b": "v"}}` the lookups `Get "a.b"` and `Get "A.B"` differ, and
merging two sources that spell the same key with different casing yields
two sibling keys rather than one leaf. -/
theorem c3_case_sensitive_divergence :
    getValueFromMap [("a", CVal.vMap [("b", CVal.vStr "v")])] "a.b" = CVal.vStr "v" ∧
    getValueFromMap [("a", CVal.vMap [("b", CVal.vStr "v")])] "A.B" = CVal.vNull ∧
    mergeInto [("Server", CVal.vMap [("Host", CVal.vStr "localhost")])]
        [("server", CVal.vMap [("host", CVal.vStr "example.com")])] =
      [("Server", CVal.vMap [("Host", CVal.vStr "localhost")]),
       ("server", CVal.vMap [("host", CVal.vStr "example.com")])] :=
  ⟨rfl, rfl, rfl⟩

/-- Claim C5 as stated is false: folding `PREFIX_A__B=v` (double
underscore) does not make `Get "a.b"` yield `"v"`; the empty segment is
kept, not dropped. -/
theorem c5_counterexample :
    getValueFromMap (osEnvVarLoad "PREFIX_" ["PREFIX_A__B=v"]) "a.b" ≠ CVal.vStr "v" := by
  intro h
  exact CVal.noConfusion
    ((show CVal.vNull = getValueFromMap (osEnvVarLoad "PREFIX_" ["PREFIX_A__B=v"]) "a.b"
      from rfl).trans h)

/-- Claim C5, amended: the folder keeps empty segments produced by
consecutive underscores as keys named by the empty string, so
`PREFIX_A_B=v` yields `Get "a.b" = "v"`, while `PREFIX_A__B=v` leaves
`Get "a.b"` absent and instead yields `Get "a..b" = "v"`. -/
theorem c5_env_fold_keeps_empty_segments :
    getValueFromMap (osEnvVarLoad "PREFIX_" ["PREFIX_A_B=v"]) "a.b" = CVal.vStr "v" ∧
    getValueFromMap (osEnvVarLoad "PREFIX_" ["PREFIX_A__B=v"]) "a.b" = CVal.vNull ∧
    getValueFromMap (osEnvVarLoad "PREFIX_" ["PREFIX_A__B=v"]) "a..b" = CVal.vStr "v" :=
  ⟨rfl, rfl, rfl⟩

/-- Claim C10: when the Consul KV lookup succeeds but finds no pair,
`Consul.Load` returns the empty map without an error, and merging the
empty map into any accumulated configuration leaves it unchanged. -/
theorem c10_consul_absent_key (dec : ConsulDecoder) :
    consulLoad dec (Except.ok none) = Except.ok [] ∧
    ∀ d : CMap, mergeInto d [] = d :=
  ⟨rfl, fun _ => rfl⟩
